import Mathlib

/-!
# Verification of the Subsequences alignment renderer

A shallow embedding of the alignment-rendering pipeline of the
"Subsequences" amino-acid alignment visualizer, together with proofs of
its specified properties.  The repository contains two variants of the
application component; the definitions below follow the reflow variant
(the one with `charsPerLine`, `splitText`, `totalLines`, `renderedLines`
and a container-scoped selection handler), and additionally embed the
second variant's `shouldBeColored` test where a claim mentions it.

Strings are modelled as `List Char` where that makes index reasoning
direct; JavaScript string indexing (which yields `undefined` out of
range) is modelled with `List.get?`, record lookup (which also yields
`undefined` for a missing key) with `Option`.
-/

namespace Subsequences

/-- The 21-symbol alphabet: 20 amino-acid one-letter codes plus the gap
marker, exactly the `ALLOWED_SYMBOLS` string constant of the source. -/
def ALLOWED_SYMBOLS : List Char :=
  ['A', 'R', 'N', 'D', 'C', 'E', 'Q', 'G', 'H', 'I', 'L', 'K', 'M', 'F',
   'P', 'S', 'T', 'W', 'Y', 'V', '-']

/-- The `COLOR_MAP` record of the source: a partial map from symbol to CSS
color, `none` modelling JavaScript's `undefined` for a missing key. -/
def COLOR_MAP (c : Char) : Option String :=
  List.lookup c
    [('C', "#FFEA00"), ('A', "#67E4A6"), ('I', "#67E4A6"), ('L', "#67E4A6"),
     ('M', "#67E4A6"), ('F', "#67E4A6"), ('W', "#67E4A6"), ('Y', "#67E4A6"),
     ('V', "#67E4A6"), ('P', "#67E4A6"), ('G', "#C4C4C4"), ('D', "#FC9CAC"),
     ('E', "#FC9CAC"), ('K', "#BB99FF"), ('R', "#BB99FF"), ('S', "#80BFFF"),
     ('T', "#80BFFF"), ('H', "#80BFFF"), ('Q', "#80BFFF"), ('N', "#80BFFF"),
     ('-', "transparent")]

/-- JavaScript's `String.prototype.toUpperCase`, per character
(`value.toUpperCase()` in the source). -/
def toUpperChars (value : List Char) : List Char :=
  value.map Char.toUpper

/-- The field-scoped error message of the submission-time validator. -/
def invalidSymbolMessage : String :=
  "Only amino acid symbols are allowed"

/-- The CSS color used for uncolored cells and the gap symbol. -/
def transparent : String :=
  "transparent"

/-- The submission-time validator `validateAminoAcidInput` of the source:
uppercase the value, then check every character against
`ALLOWED_SYMBOLS.includes`; `none` models the validator returning `true`
(valid), `some msg` models it returning the error message string. -/
def validateAminoAcidInput (value : List Char) : Option String :=
  if (toUpperChars value).all (fun char => ALLOWED_SYMBOLS.contains char) then
    none
  else
    some invalidSymbolMessage

/-- The live `onChange` filter of the input fields: uppercase, split into
characters, keep only those with `ALLOWED_SYMBOLS.includes(char)`, and
join back (`filteredValue` in the source). -/
def filteredValue (value : List Char) : List Char :=
  (toUpperChars value).filter (fun char => ALLOWED_SYMBOLS.contains char)

/-- `splitText` from the reflow memo: the loop
`for (i = 0; i < text.length; i += charsPerLine) push(text.slice(i, i + charsPerLine))`.
The memo only ever calls it with `charsPerLine > 0` (the `charsPerLine <= 0`
guard short-circuits first); the `0, _ :: _` equation is unreachable on
those calls and is present only to make the function total. -/
def splitText (charsPerLine : Nat) (text : List Char) : List (List Char) :=
  match charsPerLine, text with
  | _, [] => []
  | 0, _ :: _ => []
  | W + 1, c :: cs =>
      ((c :: cs).take (W + 1)) :: splitText (W + 1) ((c :: cs).drop (W + 1))
termination_by text.length
decreasing_by simp [List.drop_succ_cons]; omega

/-- The `useMemo` computing `{ linesA, linesB }`: empty line lists when
`charsPerLine <= 0`, otherwise both sequences split into chunks. -/
def computeLines (charsPerLine : Int) (firstSequence secondSequence : List Char) :
    List (List Char) × List (List Char) :=
  if charsPerLine ≤ 0 then ([], [])
  else (splitText charsPerLine.toNat firstSequence,
        splitText charsPerLine.toNat secondSequence)

/-- `totalLines = Math.max(linesA.length, linesB.length) * 2`. -/
def totalLines (linesA linesB : List (List Char)) : Nat :=
  (max linesA.length linesB.length) * 2

/-- One rendered display line: its chunk content, which track it belongs
to (`isTextA` = reference track), and the global index of its first cell. -/
structure DisplayLine where
  content : List Char
  isTextA : Bool
  startGlobalIndex : Int
  deriving Repr, DecidableEq

/-- The `renderedLines` memo: for each `lineIndex < totalLines`, even
indices take chunk `lineIndex / 2` of the reference track and odd indices
the same chunk of the query track, both with
`startGlobalIndex = contentIndex * charsPerLine`; a missing chunk
(`linesA[contentIndex] || ''`) becomes the empty content. -/
def renderedLines (charsPerLine : Int) (linesA linesB : List (List Char)) :
    List DisplayLine :=
  (List.range (totalLines linesA linesB)).map (fun lineIndex =>
    let contentIndex := lineIndex / 2
    if lineIndex % 2 == 0 then
      { content := linesA.getD contentIndex [], isTextA := true,
        startGlobalIndex := (contentIndex : Int) * charsPerLine }
    else
      { content := linesB.getD contentIndex [], isTextA := false,
        startGlobalIndex := (contentIndex : Int) * charsPerLine })

/-- The full layout pipeline from the rendered sequences and the measured
width to the ordered display-line list. -/
def layout (charsPerLine : Int) (firstSequence secondSequence : List Char) :
    List DisplayLine :=
  let p := computeLines charsPerLine firstSequence secondSequence
  renderedLines charsPerLine p.1 p.2

/-- The `isDifferent` test of the reflow variant's query-track cell:
`globalIndex >= firstSequence.length || char !== firstSequence[globalIndex]`. -/
def isDifferent (firstSequence : List Char) (globalIndex : Nat) (char : Char) :
    Bool :=
  decide (globalIndex ≥ firstSequence.length) ||
    !(some char == firstSequence.get? globalIndex)

/-- Background of a reference-track cell: `bg={COLOR_MAP[char]}`. -/
def refCellBg (char : Char) : Option String :=
  COLOR_MAP char

/-- Background of a query-track cell in the reflow variant:
`bg={isDifferent ? COLOR_MAP[char] : 'transparent'}`. -/
def queryCellBg (firstSequence : List Char) (globalIndex : Nat) (char : Char) :
    Option String :=
  if isDifferent firstSequence globalIndex char then COLOR_MAP char
  else some transparent

/-- The second variant's per-symbol test
`shouldBeColored = symbol !== firstSequence[index]`. -/
def shouldBeColored (firstSequence : List Char) (index : Nat) (symbol : Char) :
    Bool :=
  !(some symbol == firstSequence.get? index)

/-- Background of a query-track cell in the second variant:
`bg={shouldBeColored ? COLOR_MAP[symbol] : 'transparent'}`. -/
def queryCellBgAlt (firstSequence : List Char) (index : Nat) (symbol : Char) :
    Option String :=
  if shouldBeColored firstSequence index symbol then COLOR_MAP symbol
  else some transparent

/-- The root-level error message of the length check in `onSubmit`. -/
def lengthErrorMessage : String :=
  "All sequences must be of the same length"

/-- The component state relevant to rendering: the two rendered sequences,
the measured `charsPerLine`, and the root-scoped length error. -/
structure AppState where
  firstSequence : List Char
  secondSequence : List Char
  charsPerLine : Int
  rootLengthError : Option String
  deriving Repr, DecidableEq

/-- The initial state: both `useState('')` sequences empty,
`useState(0)` width, no error. -/
def initialState : AppState :=
  { firstSequence := [], secondSequence := [], charsPerLine := 0,
    rootLengthError := none }

/-- The submit handler `onSubmit`: first `clearErrors('root.lengthError')`,
then on a length mismatch set the root error and return without touching
the sequences, otherwise store both sequences. -/
def onSubmit (s : AppState) (firstSubsequense secondSubsequense : List Char) :
    AppState :=
  let s := { s with rootLengthError := none }
  if firstSubsequense.length ≠ secondSubsequense.length then
    { s with rootLengthError := some lengthErrorMessage }
  else
    { s with firstSequence := firstSubsequense,
             secondSequence := secondSubsequense }

/-- The resize handler: `setCharsPerLine(Math.floor(containerWidth / 16))`,
modelled as storing an arbitrary new width. -/
def setCharsPerLine (s : AppState) (w : Int) : AppState :=
  { s with charsPerLine := w }

/-- States reachable from the initial state by submissions and resizes,
the only events that write this state. -/
inductive Reachable : AppState → Prop
  | init : Reachable initialState
  | submit {s : AppState} (d1 d2 : List Char) :
      Reachable s → Reachable (onSubmit s d1 d2)
  | resize {s : AppState} (w : Int) :
      Reachable s → Reachable (setCharsPerLine s w)

/-- The observable inputs of the debounced selection handler: the selected
text and whether the selection's anchor and focus nodes lie inside the
rendered alignment container. -/
structure SelectionState where
  text : List Char
  anchorInContainer : Bool
  focusInContainer : Bool
  deriving Repr, DecidableEq

/-- `handleTextSelection` of the reflow variant: bail out when there is no
selection or its text is empty; write the text to the clipboard (and toast
on success) only when the container exists and contains both the anchor
and the focus node.  The result is the clipboard write request: `none`
means nothing happens. -/
def handleTextSelection (selection : Option SelectionState)
    (containerExists : Bool) : Option (List Char) :=
  match selection with
  | none => none
  | some sel =>
      if sel.text = [] then none
      else if containerExists && sel.anchorInContainer && sel.focusInContainer
      then some sel.text
      else none

/-! ## Lemmas about `splitText` -/

theorem splitText_nil (W : Nat) : splitText W [] = [] := by
  cases W <;> simp [splitText]

theorem splitText_cons (W : Nat) (c : Char) (cs : List Char) :
    splitText (W + 1) (c :: cs) =
      ((c :: cs).take (W + 1)) :: splitText (W + 1) ((c :: cs).drop (W + 1)) := by
  rw [splitText]

/-- The chunks of `splitText` concatenate back to the original list. -/
theorem splitText_join (W : Nat) (l : List Char) :
    (splitText (W + 1) l).flatten = l := by
  cases l with
  | nil => simp [splitText_nil]
  | cons c cs =>
      rw [splitText_cons, List.flatten_cons, splitText_join W ((c :: cs).drop (W + 1)),
        List.take_append_drop]
termination_by l.length
decreasing_by simp [List.drop_succ_cons]; omega

/-- `splitText` produces exactly `ceil (length / (W+1))` chunks. -/
theorem splitText_length (W : Nat) (l : List Char) :
    (splitText (W + 1) l).length = (l.length + W) / (W + 1) := by
  cases l with
  | nil =>
      simp [splitText_nil]
      exact (Nat.div_eq_of_lt (by omega)).symm
  | cons c cs =>
      rw [splitText_cons, List.length_cons,
        splitText_length W ((c :: cs).drop (W + 1))]
      rw [List.length_drop, List.length_cons]
      rcases le_or_lt (cs.length + 1) (W + 1) with h | h
      · have h0 : cs.length + 1 - (W + 1) = 0 := by omega
        have e2 : cs.length + 1 + W = cs.length + (W + 1) := by omega
        rw [h0, e2, Nat.div_eq_of_lt (by omega),
          Nat.add_div_right _ (by omega), Nat.div_eq_of_lt (by omega)]
      · obtain ⟨m, hm⟩ : ∃ m, cs.length + 1 = (W + 1) + m := ⟨cs.length - W, by omega⟩
        rw [hm]
        have h1 : W + 1 + m - (W + 1) + W = m + W := by omega
        have h2 : W + 1 + m + W = m + W + (W + 1) := by omega
        rw [h1, h2, Nat.add_div_right _ (by omega)]
termination_by l.length
decreasing_by simp [List.drop_succ_cons]; omega

/-- Chunk `k` of `splitText` is the slice `[k*(W+1), k*(W+1)+(W+1))`. -/
theorem splitText_getElem? (W k : Nat) (l : List Char) :
    (splitText (W + 1) l)[k]? =
      if k * (W + 1) < l.length then
        some ((l.drop (k * (W + 1))).take (W + 1))
      else none := by
  cases l with
  | nil => simp [splitText_nil]
  | cons c cs =>
      rw [splitText_cons]
      cases k with
      | zero => simp
      | succ k =>
          rw [List.getElem?_cons_succ,
            splitText_getElem? W k ((c :: cs).drop (W + 1))]
          rw [List.length_drop, List.drop_drop, List.length_cons]
          have harith : W + 1 + k * (W + 1) = (k + 1) * (W + 1) := by ring
          rw [harith]
          have hcond : k * (W + 1) < cs.length + 1 - (W + 1) ↔
              (k + 1) * (W + 1) < cs.length + 1 := by
            have hmul : (k + 1) * (W + 1) = k * (W + 1) + (W + 1) := by ring
            omega
          by_cases h : (k + 1) * (W + 1) < cs.length + 1
          · rw [if_pos (hcond.mpr h), if_pos h]
          · rw [if_neg (fun hc => h (hcond.mp hc)), if_neg h]
termination_by l.length
decreasing_by simp [List.drop_succ_cons]; omega

/-! ## Lemmas about `renderedLines` -/

theorem getElem?_map_range {α : Type} (f : Nat → α) (n i : Nat) :
    ((List.range n).map f)[i]? = if i < n then some (f i) else none := by
  rcases Nat.lt_or_ge i n with h | h
  · simp [List.getElem?_map, List.getElem?_range h, h]
  · have hn : ¬ i < n := by omega
    rw [List.getElem?_eq_none (by simpa using h), if_neg hn]

theorem renderedLines_length (charsPerLine : Int)
    (linesA linesB : List (List Char)) :
    (renderedLines charsPerLine linesA linesB).length = totalLines linesA linesB := by
  simp [renderedLines]

/-- Even positions of `renderedLines` carry reference chunks. -/
theorem renderedLines_getElem?_even (charsPerLine : Int)
    (linesA linesB : List (List Char)) (k : Nat)
    (hk : k < max linesA.length linesB.length) :
    (renderedLines charsPerLine linesA linesB)[2 * k]? =
      some { content := linesA.getD k [], isTextA := true,
             startGlobalIndex := (k : Int) * charsPerLine } := by
  rw [renderedLines, getElem?_map_range, if_pos (by rw [totalLines]; omega)]
  have hmod : 2 * k % 2 = 0 := by omega
  have hdiv : 2 * k / 2 = k := by omega
  simp [hmod, hdiv]

/-- Odd positions of `renderedLines` carry query chunks. -/
theorem renderedLines_getElem?_odd (charsPerLine : Int)
    (linesA linesB : List (List Char)) (k : Nat)
    (hk : k < max linesA.length linesB.length) :
    (renderedLines charsPerLine linesA linesB)[2 * k + 1]? =
      some { content := linesB.getD k [], isTextA := false,
             startGlobalIndex := (k : Int) * charsPerLine } := by
  rw [renderedLines, getElem?_map_range, if_pos (by rw [totalLines]; omega)]
  have hmod : (2 * k + 1) % 2 = 1 := by omega
  have hdiv : (2 * k + 1) / 2 = k := by omega
  simp [hmod, hdiv]

/-- A map over `range (2 * M)` is the flattening of consecutive pairs. -/
theorem map_range_two_mul {α : Type} (f : Nat → α) (M : Nat) :
    (List.range (2 * M)).map f =
      ((List.range M).map (fun k => [f (2 * k), f (2 * k + 1)])).flatten := by
  induction M with
  | zero => simp
  | succ M ih =>
      have h2 : 2 * (M + 1) = (2 * M) + 1 + 1 := by ring
      rw [h2, List.range_succ, List.range_succ, List.range_succ,
        List.map_append, List.map_append, List.map_append, ih]
      simp [Nat.mul_succ]

/-- Filtering pair-flattened lines for the first component of each pair. -/
theorem flatten_pairs_filter_fst {α β : Type} (p : α → Bool) (g : α → β)
    (a b : Nat → α) (ha : ∀ k, p (a k) = true) (hb : ∀ k, p (b k) = false)
    (l : List Nat) :
    (((l.map (fun k => [a k, b k])).flatten.filter p).map g) =
      l.map (fun k => g (a k)) := by
  induction l with
  | nil => simp
  | cons x xs ih =>
      rw [List.map_cons, List.flatten_cons, List.filter_append, List.map_append, ih]
      simp [List.filter_cons, ha, hb]

/-- Filtering pair-flattened lines for the second component of each pair. -/
theorem flatten_pairs_filter_snd {α β : Type} (p : α → Bool) (g : α → β)
    (a b : Nat → α) (ha : ∀ k, p (a k) = false) (hb : ∀ k, p (b k) = true)
    (l : List Nat) :
    (((l.map (fun k => [a k, b k])).flatten.filter p).map g) =
      l.map (fun k => g (b k)) := by
  induction l with
  | nil => simp
  | cons x xs ih =>
      rw [List.map_cons, List.flatten_cons, List.filter_append, List.map_append, ih]
      simp [List.filter_cons, ha, hb]

/-- Reading a chunk list through `getD` over a long enough `range`
flattens back to the flattened chunk list. -/
theorem flatten_map_getD (l : List (List Char)) (M : Nat) (h : l.length ≤ M) :
    ((List.range M).map (fun k => l.getD k [])).flatten = l.flatten := by
  induction l generalizing M with
  | nil =>
      induction M with
      | zero => simp
      | succ M ihM =>
          rw [List.range_succ, List.map_append, List.flatten_append,
            ihM (by simp)]
          simp
  | cons x xs ih =>
      cases M with
      | zero => simp at h
      | succ M =>
          rw [List.range_succ_eq_map, List.map_cons, List.map_map,
            List.flatten_cons]
          have comp : ((fun k => (x :: xs).getD k []) ∘ (fun i => i + 1)) =
              (fun k => xs.getD k []) := funext fun k => rfl
          rw [comp, ih M (by simpa using h)]
          rfl

/-- `renderedLines` is the flattening of per-chunk (reference, query)
line pairs. -/
theorem renderedLines_eq_pairs (charsPerLine : Int)
    (linesA linesB : List (List Char)) :
    renderedLines charsPerLine linesA linesB =
      ((List.range (max linesA.length linesB.length)).map (fun k =>
        [{ content := linesA.getD k [], isTextA := true,
           startGlobalIndex := (k : Int) * charsPerLine },
         { content := linesB.getD k [], isTextA := false,
           startGlobalIndex := (k : Int) * charsPerLine }])).flatten := by
  rw [renderedLines, totalLines, Nat.mul_comm, map_range_two_mul]
  congr 1
  apply List.map_congr_left
  intro k _
  have hmod0 : 2 * k % 2 = 0 := by omega
  have hdiv0 : 2 * k / 2 = k := by omega
  have hmod1 : (2 * k + 1) % 2 = 1 := by omega
  have hdiv1 : (2 * k + 1) / 2 = k := by omega
  simp [hmod0, hdiv0, hmod1, hdiv1]

/-- For a positive width, the pipeline emits `2 * ceil (L / W)` lines. -/
theorem layout_length_of_pos (R Q : List Char) (W : Int) (hW : 1 ≤ W)
    (hlen : R.length = Q.length) :
    (layout W R Q).length = 2 * ((R.length + W.toNat - 1) / W.toNat) := by
  obtain ⟨w, hw⟩ : ∃ w, W.toNat = w + 1 := ⟨W.toNat - 1, by omega⟩
  rw [layout, computeLines, if_neg (by omega)]
  rw [renderedLines_length, totalLines, hw, splitText_length, splitText_length,
    hlen, Nat.max_self]
  have h1 : Q.length + (w + 1) - 1 = Q.length + w := by omega
  rw [h1, Nat.mul_comm]

/-- For a non-positive width, the pipeline emits no lines at all. -/
theorem layout_nonpos (R Q : List Char) (W : Int) (hW : W ≤ 0) :
    layout W R Q = [] := by
  rw [layout, computeLines, if_pos hW]
  simp [renderedLines, totalLines]

/-! ## Claim theorems -/

/-- C2: for non-empty equal-length sequences of length `L` and
`charsPerLine = W >= 1`, the layout emits exactly `2 * ceil (L / W)`
display lines (here `ceil (L / W) = (L + W - 1) / W`); for `W <= 0` it
emits no display lines and does not fail. -/
theorem claim_C2_line_count (R Q : List Char) (W : Int) (hne : R ≠ [])
    (hlen : R.length = Q.length) :
    (1 ≤ W → (layout W R Q).length = 2 * ((R.length + W.toNat - 1) / W.toNat)) ∧
    (W ≤ 0 → layout W R Q = []) :=
  ⟨fun hW => layout_length_of_pos R Q W hW hlen,
   fun hW => layout_nonpos R Q W hW⟩

theorem claim_C2_line_count_witness :
    ((['A', 'R', 'N', 'D', 'C'] : List Char) ≠ []) ∧
    (layout 3 ['A', 'R', 'N', 'D', 'C'] ['A', 'R', 'N', 'E', 'C']).length =
      2 * (((['A', 'R', 'N', 'D', 'C'] : List Char).length +
        (3 : Int).toNat - 1) / (3 : Int).toNat) ∧
    layout 0 ['A', 'R', 'N', 'D', 'C'] ['A', 'R', 'N', 'E', 'C'] = [] :=
  ⟨by decide,
   (claim_C2_line_count ['A', 'R', 'N', 'D', 'C'] ['A', 'R', 'N', 'E', 'C'] 3
      (by decide) (by decide)).1 (by decide),
   (claim_C2_line_count ['A', 'R', 'N', 'D', 'C'] ['A', 'R', 'N', 'E', 'C'] 0
      (by decide) (by decide)).2 (by decide)⟩

/-- C3: for every pair of sequences and every `charsPerLine >= 1`,
concatenating the contents of the reference-track display lines in order
reproduces the reference sequence, and likewise for the query track. -/
theorem claim_C3_layout_roundtrip (R Q : List Char) (W : Int) (hW : 1 ≤ W) :
    (((layout W R Q).filter (fun line => line.isTextA)).map
        (fun line => line.content)).flatten = R ∧
    (((layout W R Q).filter (fun line => !line.isTextA)).map
        (fun line => line.content)).flatten = Q := by
  obtain ⟨w, hw⟩ : ∃ w, W.toNat = w + 1 := ⟨W.toNat - 1, by omega⟩
  rw [layout, computeLines, if_neg (by omega)]
  rw [renderedLines_eq_pairs]
  constructor
  · rw [flatten_pairs_filter_fst _ _ _ _ (fun k => rfl) (fun k => rfl),
      flatten_map_getD _ _ (Nat.le_max_left _ _), hw, splitText_join]
  · rw [flatten_pairs_filter_snd _ _ _ _ (fun k => rfl) (fun k => rfl),
      flatten_map_getD _ _ (Nat.le_max_right _ _), hw, splitText_join]

theorem claim_C3_layout_roundtrip_witness :
    (((layout 3 ['A', 'R', 'N', 'D', 'C'] ['A', 'R', 'N', 'E', 'C']).filter
        (fun line => line.isTextA)).map
        (fun line => line.content)).flatten = ['A', 'R', 'N', 'D', 'C'] ∧
    (((layout 3 ['A', 'R', 'N', 'D', 'C'] ['A', 'R', 'N', 'E', 'C']).filter
        (fun line => !line.isTextA)).map
        (fun line => line.content)).flatten = ['A', 'R', 'N', 'E', 'C'] :=
  claim_C3_layout_roundtrip ['A', 'R', 'N', 'D', 'C'] ['A', 'R', 'N', 'E', 'C']
    3 (by decide)

/-- C4: for `charsPerLine = W >= 1` and equal-length tracks, the layout
consists of exactly `ceil (L / W)` alternating (reference, query) line
pairs, the lines at positions `2k` and `2k+1` carrying chunk `k` of the
reference and query track respectively — the slice of global indices
`[k*W, (k+1)*W)` — each tagged with starting global index `k*W`. -/
theorem claim_C4_chunking_order (R Q : List Char) (W : Int) (hW : 1 ≤ W)
    (hlen : R.length = Q.length) :
    (layout W R Q).length = 2 * ((R.length + W.toNat - 1) / W.toNat) ∧
    ∀ k, k < (R.length + W.toNat - 1) / W.toNat →
      (layout W R Q)[2 * k]? =
        some { content := (R.drop (k * W.toNat)).take W.toNat, isTextA := true,
               startGlobalIndex := (k : Int) * W } ∧
      (layout W R Q)[2 * k + 1]? =
        some { content := (Q.drop (k * W.toNat)).take W.toNat, isTextA := false,
               startGlobalIndex := (k : Int) * W } := by
  obtain ⟨w, hw⟩ : ∃ w, W.toNat = w + 1 := ⟨W.toNat - 1, by omega⟩
  have hWInt : (W.toNat : Int) = W := by omega
  refine ⟨layout_length_of_pos R Q W hW hlen, ?_⟩
  intro k hk
  rw [hw] at hk
  have hkR : k * (w + 1) < R.length := by
    have h1 : k + 1 ≤ (R.length + (w + 1) - 1) / (w + 1) := hk
    have h2 : (k + 1) * (w + 1) ≤ R.length + (w + 1) - 1 :=
      (Nat.le_div_iff_mul_le (by omega)).mp h1
    have h3 : (k + 1) * (w + 1) = k * (w + 1) + (w + 1) := by ring
    omega
  have hkQ : k * (w + 1) < Q.length := by omega
  have hmax : k < max (splitText (w + 1) R).length (splitText (w + 1) Q).length := by
    rw [splitText_length, splitText_length, hlen, Nat.max_self]
    have h2 : R.length + (w + 1) - 1 = Q.length + w := by omega
    rw [h2] at hk
    exact hk
  rw [layout, computeLines, if_neg (by omega)]
  simp only [hw]
  constructor
  · rw [renderedLines_getElem?_even _ _ _ k hmax]
    rw [List.getD_eq_getElem?_getD, splitText_getElem?, if_pos hkR,
      Option.getD_some]
  · rw [renderedLines_getElem?_odd _ _ _ k hmax]
    rw [List.getD_eq_getElem?_getD, splitText_getElem?, if_pos hkQ,
      Option.getD_some]

theorem claim_C4_chunking_order_witness :
    (1 < ((['A', 'R', 'N', 'D', 'C'] : List Char).length +
      (3 : Int).toNat - 1) / (3 : Int).toNat) ∧
    (layout 3 ['A', 'R', 'N', 'D', 'C'] ['A', 'R', 'N', 'E', 'C'])[2 * 1]? =
      some { content := ((['A', 'R', 'N', 'D', 'C'] : List Char).drop
               (1 * (3 : Int).toNat)).take (3 : Int).toNat, isTextA := true,
             startGlobalIndex := (1 : Int) * 3 } ∧
    (layout 3 ['A', 'R', 'N', 'D', 'C'] ['A', 'R', 'N', 'E', 'C'])[2 * 1 + 1]? =
      some { content := ((['A', 'R', 'N', 'E', 'C'] : List Char).drop
               (1 * (3 : Int).toNat)).take (3 : Int).toNat, isTextA := false,
             startGlobalIndex := (1 : Int) * 3 } :=
  ⟨by decide,
   ((claim_C4_chunking_order ['A', 'R', 'N', 'D', 'C'] ['A', 'R', 'N', 'E', 'C']
      3 (by decide) (by decide)).2 1 (by decide)).1,
   ((claim_C4_chunking_order ['A', 'R', 'N', 'D', 'C'] ['A', 'R', 'N', 'E', 'C']
      3 (by decide) (by decide)).2 1 (by decide)).2⟩

/-- C1: for equal-length rendered sequences, a reference-track cell is
always filled with its `COLOR_MAP` color (the gap symbol maps to the
transparent no-fill color), while a query-track cell — in both component
variants — is filled with its `COLOR_MAP` color when it mismatches the
reference at the same index and rendered transparent when it matches. -/
theorem claim_C1_cell_coloring (R Q : List Char) (hlen : R.length = Q.length)
    (i : Nat) (hiR : i < R.length) (hiQ : i < Q.length) :
    refCellBg (R[i]) = COLOR_MAP (R[i]) ∧
    COLOR_MAP '-' = some transparent ∧
    (Q[i] ≠ R[i] →
      queryCellBg R i (Q[i]) = COLOR_MAP (Q[i]) ∧
      queryCellBgAlt R i (Q[i]) = COLOR_MAP (Q[i])) ∧
    (Q[i] = R[i] →
      queryCellBg R i (Q[i]) = some transparent ∧
      queryCellBgAlt R i (Q[i]) = some transparent) := by
  have hRi : R.get? i = some (R[i]) := by
    rw [List.get?_eq_getElem?, List.getElem?_eq_getElem hiR]
  refine ⟨rfl, rfl, fun hne => ?_, fun heq => ?_⟩
  · have hdiff : isDifferent R i (Q[i]) = true := by
      rw [isDifferent, hRi]
      simp [hne]
    have hcol : shouldBeColored R i (Q[i]) = true := by
      rw [shouldBeColored, hRi]
      simp [hne]
    rw [queryCellBg, if_pos hdiff, queryCellBgAlt, if_pos hcol]
    exact ⟨rfl, rfl⟩
  · have hdiff : isDifferent R i (Q[i]) = false := by
      rw [isDifferent, hRi]
      simp [heq]
      omega
    have hcol : shouldBeColored R i (Q[i]) = false := by
      rw [shouldBeColored, hRi]
      simp [heq]
    rw [queryCellBg, if_neg (by simp [hdiff]), queryCellBgAlt,
      if_neg (by simp [hcol])]
    exact ⟨rfl, rfl⟩

theorem claim_C1_cell_coloring_witness :
    queryCellBg ['A', 'R', 'N', 'D', 'C'] 3 'E' = COLOR_MAP 'E' ∧
    queryCellBg ['A', 'R', 'N', 'D', 'C'] 2 'N' = some transparent :=
  ⟨((claim_C1_cell_coloring ['A', 'R', 'N', 'D', 'C'] ['A', 'R', 'N', 'E', 'C']
      (by decide) 3 (by decide) (by decide)).2.2.1 (by decide)).1,
   ((claim_C1_cell_coloring ['A', 'R', 'N', 'D', 'C'] ['A', 'R', 'N', 'N', 'C']
      (by decide) 2 (by decide) (by decide)).2.2.2 (by decide)).1⟩

/-- C5: a submission with validated sequences of different lengths only
sets the root-scoped length error (with the exact message) and leaves the
rendered sequences and the measured width untouched; every submission
clears the root error first, so an equal-length submission leaves no root
error behind. -/
theorem claim_C5_length_mismatch_atomic (s : AppState) (d1 d2 : List Char) :
    (d1.length ≠ d2.length →
      onSubmit s d1 d2 =
        { firstSequence := s.firstSequence,
          secondSequence := s.secondSequence,
          charsPerLine := s.charsPerLine,
          rootLengthError := some lengthErrorMessage }) ∧
    (d1.length = d2.length →
      onSubmit s d1 d2 =
        { firstSequence := d1, secondSequence := d2,
          charsPerLine := s.charsPerLine, rootLengthError := none }) := by
  constructor
  · intro h
    simp [onSubmit, h]
  · intro h
    simp [onSubmit, h]

theorem claim_C5_length_mismatch_atomic_witness :
    ((['A'] : List Char).length ≠ ([] : List Char).length) ∧
    onSubmit initialState ['A'] [] =
      { firstSequence := [], secondSequence := [], charsPerLine := 0,
        rootLengthError := some lengthErrorMessage } :=
  ⟨by decide,
   (claim_C5_length_mismatch_atomic initialState ['A'] []).1 (by decide)⟩

/-- C9: both rendered sequences start empty, and in every reachable
component state they have equal length — submissions replace both
sequences together and only after the length check passed. -/
theorem claim_C9_equal_length_invariant :
    initialState.firstSequence = [] ∧ initialState.secondSequence = [] ∧
    ∀ s : AppState, Reachable s →
      s.firstSequence.length = s.secondSequence.length := by
  refine ⟨rfl, rfl, ?_⟩
  intro s hs
  induction hs with
  | init => rfl
  | @submit s' d1 d2 _ ih =>
      by_cases h : d1.length = d2.length
      · simp [onSubmit, h]
      · simp only [onSubmit, if_pos h]
        exact ih
  | @resize s' w _ ih =>
      simpa [setCharsPerLine] using ih

theorem claim_C9_equal_length_invariant_witness :
    Reachable (onSubmit initialState ['A'] ['R']) ∧
    (onSubmit initialState ['A'] ['R']).firstSequence.length =
      (onSubmit initialState ['A'] ['R']).secondSequence.length :=
  ⟨Reachable.submit ['A'] ['R'] Reachable.init,
   claim_C9_equal_length_invariant.2.2 (onSubmit initialState ['A'] ['R'])
     (Reachable.submit ['A'] ['R'] Reachable.init)⟩

/-- C6: the submission-time validator fails (with the single wholesale
error message) exactly when the uppercased input contains a character
outside the 21-symbol alphabet, and succeeds otherwise. -/
theorem claim_C6_validator_raises_iff (value : List Char) :
    (validateAminoAcidInput value = some invalidSymbolMessage ↔
      ∃ c ∈ value.map Char.toUpper, c ∉ ALLOWED_SYMBOLS) ∧
    (validateAminoAcidInput value = none ↔
      ∀ c ∈ value.map Char.toUpper, c ∈ ALLOWED_SYMBOLS) := by
  have hall : ((toUpperChars value).all
      (fun char => ALLOWED_SYMBOLS.contains char) = true) ↔
      ∀ c ∈ value.map Char.toUpper, c ∈ ALLOWED_SYMBOLS := by
    simp [toUpperChars, List.all_eq_true]
  cases h : (toUpperChars value).all (fun char => ALLOWED_SYMBOLS.contains char) with
  | true =>
      have hmem := hall.mp h
      constructor
      · rw [validateAminoAcidInput, if_pos h]
        simp only [false_iff, reduceCtorEq]
        rintro ⟨c, hc, hnotin⟩
        exact hnotin (hmem c hc)
      · rw [validateAminoAcidInput, if_pos h]
        simpa using hmem
  | false =>
      have hmem : ¬ ∀ c ∈ value.map Char.toUpper, c ∈ ALLOWED_SYMBOLS :=
        fun hc => by rw [hall.mpr hc] at h; cases h
      constructor
      · rw [validateAminoAcidInput, if_neg (by rw [h]; exact Bool.false_ne_true)]
        simp only [true_iff]
        push_neg at hmem
        exact hmem
      · rw [validateAminoAcidInput, if_neg (by rw [h]; exact Bool.false_ne_true)]
        simp only [reduceCtorEq, false_iff]
        exact hmem

theorem claim_C6_validator_raises_iff_witness :
    validateAminoAcidInput ['a', 'r', '1'] = some invalidSymbolMessage ∧
    validateAminoAcidInput ['a', 'r', 'n', 'd'] = none :=
  ⟨(claim_C6_validator_raises_iff ['a', 'r', '1']).1.mpr
     ⟨'1', by decide, by decide⟩,
   (claim_C6_validator_raises_iff ['a', 'r', 'n', 'd']).2.mpr (by decide)⟩

/-- C7: the live input filter uppercases every character and keeps, in
order, exactly the characters of the alphabet; in particular the raw
input "ar1nd" yields the buffered value "ARND". -/
theorem claim_C7_live_filter (value : List Char) :
    filteredValue value =
      (value.map Char.toUpper).filter (fun c => decide (c ∈ ALLOWED_SYMBOLS)) ∧
    filteredValue ['a', 'r', '1', 'n', 'd'] = ['A', 'R', 'N', 'D'] := by
  constructor
  · rw [filteredValue, toUpperChars]
    apply List.filter_congr
    intro c _
    simp
  · decide

/-- C10: every character the live filter outputs belongs to the alphabet;
hence the filter is idempotent and its output always passes the
submission-time validator. -/
theorem claim_C10_filter_canonical (value : List Char) :
    (∀ c ∈ filteredValue value, c ∈ ALLOWED_SYMBOLS) ∧
    filteredValue (filteredValue value) = filteredValue value ∧
    validateAminoAcidInput (filteredValue value) = none := by
  have hupper : ∀ c ∈ ALLOWED_SYMBOLS, Char.toUpper c = c := by decide
  have hmem : ∀ c ∈ filteredValue value, c ∈ ALLOWED_SYMBOLS := by
    intro c hc
    have := List.of_mem_filter hc
    simpa using this
  have hfix : toUpperChars (filteredValue value) = filteredValue value := by
    rw [toUpperChars]
    rw [List.map_congr_left (fun c hc => hupper c (hmem c hc))]
    exact List.map_id _
  refine ⟨hmem, ?_, ?_⟩
  · rw [filteredValue, hfix]
    apply List.filter_eq_self.mpr
    intro c hc
    simpa using hmem c hc
  · rw [validateAminoAcidInput, if_pos ?_]
    rw [hfix]
    apply List.all_eq_true.mpr
    intro c hc
    simpa using hmem c hc

theorem claim_C10_filter_canonical_witness :
    filteredValue (filteredValue ['a', 'r', '1', 'n', 'd']) =
      filteredValue ['a', 'r', '1', 'n', 'd'] ∧
    validateAminoAcidInput (filteredValue ['a', 'r', '1', 'n', 'd']) = none :=
  ⟨(claim_C10_filter_canonical ['a', 'r', '1', 'n', 'd']).2.1,
   (claim_C10_filter_canonical ['a', 'r', '1', 'n', 'd']).2.2⟩

/-- C8: when the debounced selection handler fires, the selected text is
written to the clipboard exactly when the selection is non-empty and both
its anchor and focus lie inside the rendered alignment container; an
empty or out-of-container selection, a missing selection, or a missing
container does nothing. -/
theorem claim_C8_selection_copy (sel : SelectionState) (containerExists : Bool) :
    handleTextSelection (some sel) true =
      (if sel.text ≠ [] ∧ sel.anchorInContainer = true ∧
          sel.focusInContainer = true
       then some sel.text else none) ∧
    handleTextSelection (some sel) false = none ∧
    handleTextSelection none containerExists = none := by
  refine ⟨?_, ?_, rfl⟩
  · by_cases ht : sel.text = []
    · simp [handleTextSelection, ht]
    · cases ha : sel.anchorInContainer <;> cases hf : sel.focusInContainer <;>
        simp [handleTextSelection, ht, ha, hf]
  · by_cases ht : sel.text = [] <;> simp [handleTextSelection, ht]

end Subsequences
